import Mathlib

/-!
Shallow embedding of the in-memory fake filesystem of the `pfs` repository
(`pfs::fake_filesystem`, file `fake_filesystem.hpp`, final revision), together
with proofs about its operations.

Modelling conventions:

* The embedding follows the `_WIN32` compile-time branch of the source.  (On
  the POSIX branch `create_root` never assigns `root_node->type`, so the root
  directory node is value-initialized to `file_type::none` and nothing can be
  created under it; the Windows branch, where `root_dir_node->type =
  file_type::directory` is assigned, is the configuration under which the
  filesystem functions and under which the repository's unit tests pass.)
* A `std::filesystem::path` is modelled as the list of components produced by
  its iterators (for example `"C:\\a\\b"` iterates as `["C:", "\\", "a",
  "b"]`, and `"a/b"` as `["a", "b"]`).
* `std::shared_ptr<node>` aliasing is modelled with an explicit store: a node
  is an index (`Nat`) into a list of node records, and `node_list` values
  (child lists, the cwd chain, traversal chains) are lists of indices.  This
  captures the source behaviour in which the cwd chain keeps nodes alive and
  visible after they are unlinked from the tree.  Memory is never reclaimed
  (`n.reset()` only drops a reference), so removed nodes simply become
  unreachable from the tree while remaining in the store.
* `std::error_code` is modelled as `Option errc`: `Option.none` is a cleared
  error code (`ec.clear()`, or a default-constructed `error_code`), `some e`
  is a set error value.  The throwing overloads, which call the `error_code`
  overload with a fresh code and throw iff it is non-zero afterwards, are
  modelled with `Except`.
* `std::lower_bound` / `std::equal_range` on a child list sorted by node name
  (the invariant documented and maintained by the source) are embedded as
  structurally recursive scans with the same result on sorted lists: find
  returns the first element with the given name, insert places the new
  element before the first element that is not smaller, remove erases the
  contiguous run of elements with the given name.
-/

namespace pfs

/-- `std::filesystem::file_type` (libstdc++ declares `none = 0`, which is the
value a value-initialized `node::type` member receives). -/
inductive file_type where
  | none
  | not_found
  | regular
  | directory
  | symlink
  | block
  | character
  | fifo
  | socket
  | unknown
deriving DecidableEq, Repr

/-- The `std::errc` values used by `fake_filesystem`. -/
inductive errc where
  | no_such_file_or_directory
  | not_a_directory
  | directory_not_empty
  | permission_denied
  | not_supported
deriving DecidableEq, Repr

/-- `std::error_code`, reduced to the error values the fake filesystem can
store.  `Option.none` models a cleared (zero) code; `if (ec)` in the source is
`ec ≠ Option.none` here. -/
abbrev error_code := Option errc

/-- A `std::filesystem::path`, as the list of components its iterators
produce. -/
abbrev path := List String

/-- Does this single component string have a nonempty `root_name()`?  On the
Windows branch these are drive names such as `"C:"` (UNC server names are not
modelled; no path in the repository uses them). -/
def is_root_name (s : String) : Bool :=
  match s.data with
  | [c, d] => c.isAlpha && d = ':'
  | _ => false

/-- Does this single component string have a nonempty `root_directory()`?
True exactly for a root-directory separator component (`"\\"` as stored in
node names by `create_root`, or `"/"`).  This is the test
`name.root_directory().empty()` (negated) from the source. -/
def is_root_dir_name (s : String) : Bool :=
  s = "\\" || s = "/"

/-- `path::is_absolute()` on the Windows branch: the path has both a root name
and a root directory, i.e. its component list starts with a drive name
followed by a root-directory separator. -/
def is_absolute (p : path) : Bool :=
  match p with
  | a :: b :: _ => is_root_name a && is_root_dir_name b
  | _ => false

/-- `path::filename()`: the last component, or `""` when the path is empty or
ends in its root name / root directory (empty relative path). -/
def filename (p : path) : String :=
  match p.getLast? with
  | some c => if is_root_name c || is_root_dir_name c then "" else c
  | Option.none => ""

/-- `path::parent_path()`: drop the last component, except that a path
consisting only of a root name and/or root directory is its own parent. -/
def parent_path (p : path) : path :=
  match p.getLast? with
  | some c => if is_root_name c || is_root_dir_name c then p else p.dropLast
  | Option.none => []

/-- `path::operator/=` for a single appended component `c` (the only shape of
right-hand side the fake filesystem uses: node names).  A root-directory
component replaces everything after the left side's root name; a root-name
component replaces the path unless the root name is unchanged; any other
component is appended. -/
def path_append (p : path) (c : String) : path :=
  if is_root_name c then
    (if p.headD "" = c then p else [c])
  else if is_root_dir_name c then
    (match p with
     | r :: _ => if is_root_name r then [r, c] else [c]
     | [] => [c])
  else p ++ [c]

/-- `fake_filesystem::node`.  `dents` holds store indices of the children.
The `is_drive` member of the source is never read and is omitted. -/
structure node where
  name : String
  type : file_type
  dents : List Nat
deriving DecidableEq, Repr

/-- The node store: models the heap of `std::shared_ptr<node>` allocations.
A node is identified by its index. -/
abbrev store := List node

/-- An index that is never valid, used where the C++ would dereference an end
iterator or `back()` of an empty vector (undefined behaviour never reached
from the public interface). -/
def dead_id : Nat := 1000000000

/-- Read a node from the store; out-of-range indices yield an inert default
node (empty name, `file_type::none`, no children). -/
def getNode (h : store) (i : Nat) : node :=
  h.getD i ⟨"", file_type.none, []⟩

/-- The name of node `i`. -/
def node_name (h : store) (i : Nat) : String :=
  (getNode h i).name

/-- Replace the child list of node `i` (an in-place mutation of `dents`
through a `shared_ptr` in the source). -/
def set_dents (h : store) (i : Nat) (l : List Nat) : store :=
  h.set i { getNode h i with dents := l }

/-- `path::operator<` restricted to the single-component names stored in
nodes: lexicographic comparison of the character sequences. -/
def nlt (a b : String) : Prop := a.data < b.data

instance (a b : String) : Decidable (nlt a b) := by
  unfold nlt; infer_instance

/-- `fake_filesystem::find_node`: `std::equal_range` over a list sorted by
node name, returning the first element of the range, or nothing.  Embedded as
a scan with the same result on sorted lists. -/
def find_node (h : store) (l : List Nat) (nm : String) : Option Nat :=
  match l with
  | [] => Option.none
  | m :: rest =>
    if nlt (node_name h m) nm then find_node h rest nm
    else if nlt nm (node_name h m) then Option.none
    else some m

/-- `fake_filesystem::insert_node`: insert at `std::lower_bound`, refusing a
duplicate name.  Returns the new list and whether the node was inserted. -/
def insert_node (h : store) (l : List Nat) (n : Nat) : List Nat × Bool :=
  match l with
  | [] => ([n], true)
  | m :: rest =>
    if nlt (node_name h m) (node_name h n) then
      let r := insert_node h rest n
      (m :: r.1, r.2)
    else if nlt (node_name h n) (node_name h m) then (n :: m :: rest, true)
    else (m :: rest, false)

/-- `fake_filesystem::remove_node`: erase the `std::equal_range` of elements
whose name equals `nm` (the source passes a node and compares by name).
Returns the new list and whether anything was removed. -/
def remove_node (h : store) (l : List Nat) (nm : String) : List Nat × Bool :=
  match l with
  | [] => ([], false)
  | m :: rest =>
    if nlt (node_name h m) nm then
      let r := remove_node h rest nm
      (m :: r.1, r.2)
    else if nlt nm (node_name h m) then (m :: rest, false)
    else (rest.dropWhile (fun i => node_name h i = nm), true)

/-- `fake_filesystem::visit_nodes` specialized to the only use in the source:
counting a node and all of its descendants in depth-first order.  The store
may in principle encode cycles, so the recursion carries fuel; every fuel
value at least the depth of the (acyclic) subtree gives the true count, and
all callers pass the store size. -/
def visit_count (h : store) (fuel : Nat) (i : Nat) : Nat :=
  match fuel with
  | 0 => 1
  | fuel + 1 => (getNode h i).dents.foldl (fun acc d => acc + visit_count h fuel d) 1

/-- `node_path.back()`; the C++ dereference of `back()` on an empty vector is
undefined behaviour, modelled by the inert `dead_id`. -/
def chain_back (l : List Nat) : Nat :=
  l.getLastD dead_id

/-- The static `fake_filesystem::traverse`: walk the component sequence from
the chain `node_path`, handling `"."` and `".."`, stopping at the first
component that is not found among the current last node's children.  Returns
the chain of traversed nodes and the remaining (unresolved) components. -/
def traverse (h : store) (node_path : List Nat) (comps : List String) :
    List Nat × List String :=
  match comps with
  | [] => (node_path, [])
  | c :: rest =>
    if c = "." then traverse h node_path rest
    else if c = ".." then
      if is_root_dir_name (node_name h (chain_back node_path)) then
        traverse h node_path rest
      else traverse h node_path.dropLast rest
    else
      match find_node h (getNode h (chain_back node_path)).dents c with
      | Option.none => (node_path, c :: rest)
      | some next => traverse h (node_path ++ [next]) rest

/-- The state of a `fake_filesystem` object: the node store, the meta-root
index, and the current-working-directory chain and path. -/
structure fake_filesystem where
  store : store
  meta_root : Nat
  cwd_nodes : List Nat
  cwd : path
deriving DecidableEq, Repr

/-- The chain traversal starts from: the meta-root for an absolute path, the
cwd chain otherwise (the member `traverse(const path&)` overload). -/
def start_chain (fs : fake_filesystem) (p : path) : List Nat :=
  if is_absolute p then [fs.meta_root] else fs.cwd_nodes

/-- The member `fake_filesystem::traverse(const path &p)` overload. -/
def traverse_path (fs : fake_filesystem) (p : path) : List Nat × List String :=
  traverse fs.store (start_chain fs p) p

/-- `fake_filesystem::create_root`, `_WIN32` branch, for a valid drive name
(the `std::invalid_argument` validation throw is not modelled; the only call
in scope passes the valid `"C:"`).  Allocates the drive node and its root
directory node, sets the cwd if it was empty, and links the drive under the
meta-root unless a root with that name already exists. -/
def create_root (fs : fake_filesystem) (root_name : String) : fake_filesystem × Bool :=
  let drive_id := fs.store.length
  let dir_id := fs.store.length + 1
  let h1 := fs.store ++ [⟨root_name, file_type.none, [dir_id]⟩,
                         ⟨"\\", file_type.directory, []⟩]
  let cwd' := if fs.cwd = [] then [root_name, "\\"] else fs.cwd
  let cwd_nodes' := if fs.cwd = [] then [fs.meta_root, drive_id, dir_id] else fs.cwd_nodes
  match find_node h1 (getNode h1 fs.meta_root).dents root_name with
  | some _ =>
    ({ fs with store := h1, cwd := cwd', cwd_nodes := cwd_nodes' }, false)
  | Option.none =>
    let dents' := (insert_node h1 (getNode h1 fs.meta_root).dents drive_id).1
    ({ fs with store := set_dents h1 fs.meta_root dents',
               cwd := cwd', cwd_nodes := cwd_nodes' }, true)

/-- The `fake_filesystem` constructor (Windows branch): allocate the
meta-root and call `create_root("C:")`. -/
def mk_fs : fake_filesystem :=
  (create_root { store := [⟨"", file_type.none, []⟩], meta_root := 0,
                 cwd_nodes := [], cwd := [] } "C:").1

/-- `fake_filesystem::create_directory(p, ec)`. -/
def create_directory (fs : fake_filesystem) (p : path) (ec : error_code) :
    Bool × fake_filesystem × error_code :=
  if p = [] then (false, fs, some errc.no_such_file_or_directory)
  else
    let t := traverse_path fs p
    if t.2 = [] then
      if (getNode fs.store (chain_back t.1)).type = file_type.directory then
        (false, fs, Option.none)
      else (false, fs, some errc.not_a_directory)
    else if t.2.length = 1 then
      if (getNode fs.store (chain_back t.1)).type = file_type.directory then
        let parent := chain_back t.1
        let new_id := fs.store.length
        let h1 := fs.store ++ [⟨filename p, file_type.directory, []⟩]
        let dents' := (insert_node h1 (getNode h1 parent).dents new_id).1
        (true, { fs with store := set_dents h1 parent dents' }, Option.none)
      else (false, fs, some errc.no_such_file_or_directory)
    else (false, fs, some errc.no_such_file_or_directory)

/-- The directory-creating loop of `create_directories`: make one new
directory node per remaining component, re-rooting at the new node each
time. -/
def mk_dirs (h : store) (parent : Nat) (comps : List String) : store :=
  match comps with
  | [] => h
  | c :: rest =>
    let new_id := h.length
    let h1 := h ++ [⟨c, file_type.directory, []⟩]
    let dents' := (insert_node h1 (getNode h1 parent).dents new_id).1
    mk_dirs (set_dents h1 parent dents') new_id rest

/-- `fake_filesystem::create_directories(p, ec)`. -/
def create_directories (fs : fake_filesystem) (p : path) (ec : error_code) :
    Bool × fake_filesystem × error_code :=
  if p = [] then (false, fs, some errc.no_such_file_or_directory)
  else
    let t := traverse_path fs p
    if t.2 = [] then
      if (getNode fs.store (chain_back t.1)).type = file_type.directory then
        (false, fs, Option.none)
      else (false, fs, some errc.not_a_directory)
    else if (getNode fs.store (chain_back t.1)).type ≠ file_type.directory then
      (false, fs, some errc.no_such_file_or_directory)
    else
      (true, { fs with store := mk_dirs fs.store (chain_back t.1) t.2 }, Option.none)

/-- The cwd path rebuilt by the `current_path` setter: `cwd_ = path(); for
(nit = node_path.begin() + 1; ...) cwd_ /= (*nit)->name;`. -/
def concat_names (h : store) (chain : List Nat) : path :=
  (chain.drop 1).foldl (fun acc i => path_append acc (node_name h i)) []

/-- `fake_filesystem::current_path(p, ec)` (the setter). -/
def current_path_set (fs : fake_filesystem) (p : path) (ec : error_code) :
    fake_filesystem × error_code :=
  if p = [] then (fs, some errc.no_such_file_or_directory)
  else
    let t := traverse_path fs p
    if t.2 = [] then
      if (getNode fs.store (chain_back t.1)).type = file_type.directory then
        ({ fs with cwd := concat_names fs.store t.1, cwd_nodes := t.1 }, Option.none)
      else (fs, some errc.no_such_file_or_directory)
    else (fs, some errc.no_such_file_or_directory)

/-- `fake_filesystem::exists(p, ec)` (the source clears `ec` before
branching, so the returned code is unconditionally clear). -/
def exists_p (fs : fake_filesystem) (p : path) : Bool × error_code :=
  (if p = [] then false else decide ((traverse_path fs p).2 = []),
   Option.none)

/-- `fake_filesystem::is_directory(p, ec)` (likewise clears `ec` first). -/
def is_directory (fs : fake_filesystem) (p : path) : Bool × error_code :=
  (if p = [] then false
   else
     decide ((traverse_path fs p).2 = []) &&
       decide ((getNode fs.store (chain_back (traverse_path fs p).1)).type =
         file_type.directory),
   Option.none)

/-- `fake_filesystem::status(p, ec)`: the `file_status` is reduced to its
`file_type` (permissions are not modelled by the fake filesystem). -/
def status (fs : fake_filesystem) (p : path) : file_type × error_code :=
  let t := traverse_path fs p
  (if t.2 = [] then (getNode fs.store (chain_back t.1)).type
   else file_type.not_found,
   Option.none)

/-- `fake_filesystem::remove(p, ec)`. -/
def remove (fs : fake_filesystem) (p : path) (ec : error_code) :
    Bool × fake_filesystem × error_code :=
  if p = [] then (false, fs, Option.none)
  else
    let t := traverse_path fs p
    if t.2 ≠ [] then (false, fs, Option.none)
    else
      let n := chain_back t.1
      if (getNode fs.store n).type = file_type.directory then
        if is_root_dir_name (getNode fs.store n).name then
          (false, fs, some errc.permission_denied)
        else if (getNode fs.store n).dents ≠ [] then
          (false, fs, some errc.directory_not_empty)
        else
          let parent := chain_back t.1.dropLast
          let dents' := (remove_node fs.store (getNode fs.store parent).dents
                          (getNode fs.store n).name).1
          (true, { fs with store := set_dents fs.store parent dents' }, Option.none)
      else (false, fs, some errc.not_supported)

/-- `fake_filesystem::remove_all(p, ec)`.  Note that on the successful
removal branch the source never touches `ec`; the returned error code is the
caller's value, unmodified. -/
def remove_all (fs : fake_filesystem) (p : path) (ec : error_code) :
    Nat × fake_filesystem × error_code :=
  if p = [] then (0, fs, Option.none)
  else
    let t := traverse_path fs p
    if t.2 ≠ [] then (0, fs, Option.none)
    else
      let n := chain_back t.1
      if (getNode fs.store n).type = file_type.directory ∧
          is_root_dir_name (getNode fs.store n).name then
        (0, fs, some errc.permission_denied)
      else
        let parent := chain_back t.1.dropLast
        let dents' := (remove_node fs.store (getNode fs.store parent).dents
                        (getNode fs.store n).name).1
        let h' := set_dents fs.store parent dents'
        (visit_count h' h'.length n, { fs with store := h' }, ec)

/-- The state of a `fake_recursive_directory_iterator`.  A `node_range`
(pair of iterators into a child list) is modelled as the list of indices not
yet consumed, so `range_.first == range_.second` is `range_ = []` and
`++range_.first` is `range_.tail`.  `dent_status_` is reduced to its
`file_type`.  `node_path_` (which in the source owns the chain whose last
node's children are iterated) is kept for fidelity but not consulted after
construction. -/
structure fake_recursive_directory_iterator where
  path_ : path
  node_path_ : List Nat
  stack_ : List (List Nat)
  range_ : List Nat
  dent_path_ : path
  dent_type_ : file_type
  recursion_pending_ : Bool
  depth_ : Int
deriving DecidableEq, Repr

/-- The default-constructed end iterator. -/
def rdi_end : fake_recursive_directory_iterator :=
  { path_ := [], node_path_ := [], stack_ := [], range_ := [],
    dent_path_ := [], dent_type_ := file_type.none,
    recursion_pending_ := true, depth_ := 0 }

/-- `fake_recursive_directory_iterator::at_end`. -/
def rdi_at_end (it : fake_recursive_directory_iterator) : Bool :=
  it.range_ = []

/-- `cur()`: the node the iterator currently designates (dereferencing
`range_.first`; undefined behaviour in C++ when at the end, modelled by
`dead_id`). -/
def rdi_cur (it : fake_recursive_directory_iterator) : Nat :=
  it.range_.headD dead_id

/-- `fake_recursive_directory_iterator::refresh`. -/
def rdi_refresh (h : store) (it : fake_recursive_directory_iterator) :
    fake_recursive_directory_iterator :=
  if it.range_ = [] then it
  else { it with dent_path_ := path_append it.path_ (node_name h (rdi_cur it)),
                 dent_type_ := (getNode h (rdi_cur it)).type }

/-- The `while (range_.first == range_.second && !stack_.empty())` ascent
loop shared by `increment` and `pop`: while the current range is exhausted
and the stack is nonempty, shrink the path by one component, restore the
saved range from the top of the stack, and decrement the depth. -/
def rdi_ascend_fuel (fuel : Nat) (p : path) (r : List Nat)
    (s : List (List Nat)) (d : Int) : path × List Nat × List (List Nat) × Int :=
  match fuel with
  | 0 => (p, r, s, d)
  | fuel + 1 =>
    if r = [] ∧ s ≠ [] then
      rdi_ascend_fuel fuel (parent_path p) (s.getLastD []) s.dropLast (d - 1)
    else (p, r, s, d)

/-- Entry point of the ascent loop.  Each iteration shortens the stack by
one, so `s.length + 1` units of fuel are never exhausted: the fuel only makes
the recursion structural. -/
def rdi_ascend (p : path) (r : List Nat) (s : List (List Nat)) (d : Int) :
    path × List Nat × List (List Nat) × Int :=
  rdi_ascend_fuel (s.length + 1) p r s d

/-- `fake_recursive_directory_iterator::increment(ec)`.  The source tests
`at_end()` but does not return early (incrementing an end iterator would
dereference an end iterator, undefined behaviour); the model leaves an end
iterator unchanged apart from the unconditional flag reset and `ec.clear()`
at the end of the function. -/
def rdi_increment (h : store) (it : fake_recursive_directory_iterator) :
    fake_recursive_directory_iterator × error_code :=
  if it.range_ = [] then ({ it with recursion_pending_ := true }, Option.none)
  else
    let cur := getNode h (rdi_cur it)
    if cur.type = file_type.directory ∧ cur.dents ≠ [] ∧ it.recursion_pending_ then
      (rdi_refresh h
        { it with path_ := path_append it.path_ cur.name,
                  stack_ := it.stack_ ++ [it.range_.tail],
                  range_ := cur.dents,
                  depth_ := it.depth_ + 1,
                  recursion_pending_ := true },
       Option.none)
    else
      let a := rdi_ascend it.path_ it.range_.tail it.stack_ it.depth_
      (rdi_refresh h
        { it with path_ := a.1, range_ := a.2.1, stack_ := a.2.2.1,
                  depth_ := a.2.2.2, recursion_pending_ := true },
       Option.none)

/-- `fake_recursive_directory_iterator::pop(ec)`: with an empty stack the
iterator becomes the end iterator at depth 0; otherwise ascend one level and
keep ascending past exhausted levels (the do-while loop). -/
def rdi_pop (h : store) (it : fake_recursive_directory_iterator) :
    fake_recursive_directory_iterator × error_code :=
  if it.stack_ = [] then
    (rdi_refresh h { it with range_ := [], depth_ := 0 }, Option.none)
  else
    let a := rdi_ascend (parent_path it.path_) (it.stack_.getLastD [])
               it.stack_.dropLast (it.depth_ - 1)
    (rdi_refresh h
      { it with path_ := a.1, range_ := a.2.1, stack_ := a.2.2.1,
                depth_ := a.2.2.2 },
     Option.none)

/-- `fake_recursive_directory_iterator::disable_recursion_pending`. -/
def rdi_disable_recursion_pending (it : fake_recursive_directory_iterator) :
    fake_recursive_directory_iterator :=
  { it with recursion_pending_ := false }

/-- `fake_filesystem::recursive_directory_iterator(p, ec)`. -/
def recursive_directory_iterator (fs : fake_filesystem) (p : path) :
    fake_recursive_directory_iterator × error_code :=
  if p = [] then (rdi_end, some errc.no_such_file_or_directory)
  else
    let t := traverse_path fs p
    if t.2 ≠ [] then (rdi_end, some errc.no_such_file_or_directory)
    else if (getNode fs.store (chain_back t.1)).type ≠ file_type.directory then
      (rdi_end, some errc.not_a_directory)
    else
      (rdi_refresh fs.store
        { path_ := p, node_path_ := t.1, stack_ := [],
          range_ := (getNode fs.store (chain_back t.1)).dents,
          dent_path_ := [], dent_type_ := file_type.none,
          recursion_pending_ := true, depth_ := 0 },
       Option.none)

/-- Drive the iterator as the repository's test does: `for (it = ...;
!it->at_end(); it->increment()) collect(it->path())`.  The fuel bounds the
number of steps (every concrete use passes enough fuel to reach the end). -/
def rdi_collect (h : store) (fuel : Nat) (it : fake_recursive_directory_iterator) :
    List path :=
  match fuel with
  | 0 => []
  | fuel + 1 =>
    if rdi_at_end it then []
    else it.dent_path_ :: rdi_collect h fuel (rdi_increment h it).1

/-- Throwing overload `status(p)`: calls the `error_code` overload with a
fresh code and throws iff it is set afterwards. -/
def status_t (fs : fake_filesystem) (p : path) : Except errc file_type :=
  match (status fs p).2 with
  | Option.none => Except.ok (status fs p).1
  | some e => Except.error e

/-- Throwing overload `exists(p)`. -/
def exists_t (fs : fake_filesystem) (p : path) : Except errc Bool :=
  match (exists_p fs p).2 with
  | Option.none => Except.ok (exists_p fs p).1
  | some e => Except.error e

/-- Throwing overload `is_directory(p)`. -/
def is_directory_t (fs : fake_filesystem) (p : path) : Except errc Bool :=
  match (is_directory fs p).2 with
  | Option.none => Except.ok (is_directory fs p).1
  | some e => Except.error e

/-! ### Order facts about node names and sorted child lists -/

theorem nlt_trans {a b c : String} (h1 : nlt a b) (h2 : nlt b c) : nlt a c :=
  lt_trans h1 h2

theorem eq_of_not_nlt {a b : String} (h1 : ¬ nlt a b) (h2 : ¬ nlt b a) : a = b :=
  String.ext (le_antisymm (not_lt.mp h2) (not_lt.mp h1))

theorem nlt_irrefl (a : String) : ¬ nlt a a :=
  lt_irrefl a.data

theorem nlt_asymm {a b : String} (h : nlt a b) : ¬ nlt b a :=
  lt_asymm h

/-- The sortedness invariant of a child list (`@pre`/`@post` of the node-list
helpers in the source): names strictly increase along the list. -/
def sorted_names (h : store) (l : List Nat) : Prop :=
  l.Pairwise (fun i j => nlt (node_name h i) (node_name h j))

instance (h : store) (l : List Nat) : Decidable (sorted_names h l) := by
  unfold sorted_names; infer_instance

theorem sorted_names_nodup {h : store} {l : List Nat}
    (hs : sorted_names h l) : (l.map (node_name h)).Nodup := by
  refine List.Pairwise.map _ ?_ hs
  intro a b hlt heq
  exact nlt_irrefl _ (heq ▸ hlt)

/-! ### Behaviour of the sorted child-list helpers -/

theorem mem_insert_node {h : store} {l : List Nat} {n x : Nat}
    (hx : x ∈ (insert_node h l n).1) : x = n ∨ x ∈ l := by
  induction l with
  | nil =>
    simp only [insert_node, List.mem_singleton] at hx
    exact Or.inl hx
  | cons m rest ih =>
    simp only [insert_node] at hx
    split at hx
    · rcases List.mem_cons.mp hx with hm | hm
      · exact Or.inr (by simp [hm])
      · rcases ih hm with h1 | h1
        · exact Or.inl h1
        · exact Or.inr (List.mem_cons_of_mem _ h1)
    · split at hx
      · rcases List.mem_cons.mp hx with hm | hm
        · exact Or.inl hm
        · exact Or.inr hm
      · exact Or.inr hx

theorem insert_node_dup {h : store} {l : List Nat} {n m : Nat}
    (hs : sorted_names h l) (hm : m ∈ l)
    (hname : node_name h m = node_name h n) :
    insert_node h l n = (l, false) := by
  induction l with
  | nil => cases hm
  | cons a rest ih =>
    rcases List.pairwise_cons.mp hs with ⟨ha, hrest⟩
    rcases List.mem_cons.mp hm with rfl | hm'
    · simp only [insert_node, hname, if_neg (nlt_irrefl _)]
    · have halt : nlt (node_name h a) (node_name h n) := hname ▸ ha m hm'
      simp only [insert_node, if_pos halt, ih hrest hm']

theorem insert_node_sorted {h : store} {l : List Nat} {n : Nat}
    (hs : sorted_names h l) : sorted_names h (insert_node h l n).1 := by
  induction l with
  | nil =>
    simp only [insert_node, sorted_names]
    exact List.pairwise_singleton _ _
  | cons a rest ih =>
    rcases List.pairwise_cons.mp hs with ⟨ha, hrest⟩
    simp only [insert_node]
    split
    · rename_i hlt
      refine List.pairwise_cons.mpr ⟨?_, ih hrest⟩
      intro x hx
      rcases mem_insert_node hx with rfl | hx'
      · exact hlt
      · exact ha x hx'
    · split
      · rename_i hlt1 hlt2
        refine List.pairwise_cons.mpr ⟨?_, hs⟩
        intro x hx
        rcases List.mem_cons.mp hx with rfl | hx'
        · exact hlt2
        · exact nlt_trans hlt2 (ha x hx')
      · exact hs

theorem find_node_eq_some {h : store} {l : List Nat} {nm : String} {m : Nat}
    (hf : find_node h l nm = some m) :
    node_name h m = nm ∧ m ∈ l := by
  induction l with
  | nil => simp [find_node] at hf
  | cons a rest ih =>
    simp only [find_node] at hf
    split at hf
    · rcases ih hf with ⟨h1, h2⟩
      exact ⟨h1, List.mem_cons_of_mem _ h2⟩
    · split at hf
      · cases hf
      · rename_i h1 h2
        cases hf
        exact ⟨eq_of_not_nlt h1 h2, List.mem_cons_self _ _⟩

/-! ### Shared concrete scenarios (used by witnesses and counterexamples) -/

/-- A fresh filesystem with one directory `a` under the root. -/
def fs_a : fake_filesystem :=
  (create_directories mk_fs ["a"] Option.none).2.1

/-- A fresh filesystem with the chain `a/b/c` under the root. -/
def fs_abc : fake_filesystem :=
  (create_directories mk_fs ["a", "b", "c"] Option.none).2.1

/-- A fresh filesystem with `a/b/c`, `x/y/z` and `a/b/i`, built exactly as in
the repository's `recursive_directory_iterator` test. -/
def fs_tree : fake_filesystem :=
  (create_directories
    ((create_directories
      ((create_directories mk_fs ["a", "b", "c"] Option.none).2.1)
      ["x", "y", "z"] Option.none).2.1)
    ["a", "b", "i"] Option.none).2.1

/-- `fs_a` after `current_path("a")`: the cwd chain ends at the node of
`a`. -/
def fs_cwd_a : fake_filesystem :=
  (current_path_set fs_a ["a"] Option.none).1

/-! ### C2 — the path-resolver step behaviour -/

/-- C2: the resolver processes one component at a time: `"."` leaves the
chain unchanged and advances; `".."` pops the chain's last node unless it is
a root-directory node, in which case the chain stays, advancing either way;
any other component is looked up among the last node's children and pushed if
found, and if not found resolution stops with the cursor at the first
unresolved component and the chain equal to the deepest existing ancestor. -/
theorem path_resolver_step_spec (h : store) (chain : List Nat) (c : String)
    (rest : List String) (hdot : c ≠ ".") (hdd : c ≠ "..") :
    traverse h chain ("." :: rest) = traverse h chain rest ∧
    (is_root_dir_name (node_name h (chain_back chain)) = true →
      traverse h chain (".." :: rest) = traverse h chain rest) ∧
    (is_root_dir_name (node_name h (chain_back chain)) = false →
      traverse h chain (".." :: rest) = traverse h chain.dropLast rest) ∧
    (find_node h (getNode h (chain_back chain)).dents c = Option.none →
      traverse h chain (c :: rest) = (chain, c :: rest)) ∧
    (∀ next, find_node h (getNode h (chain_back chain)).dents c = some next →
      traverse h chain (c :: rest) = traverse h (chain ++ [next]) rest) := by
  refine ⟨by simp [traverse], ?_, ?_, ?_, ?_⟩
  · intro hroot
    simp [traverse, hroot]
  · intro hroot
    simp [traverse, hroot]
  · intro hfind
    simp [traverse, hdot, hdd, hfind]
  · intro next hfind
    simp [traverse, hdot, hdd, hfind]

/-- Witness for C2 at a concrete store and chain (the root child list of
`fs_a`, component `"a"`). -/
theorem path_resolver_step_spec_witness :
    traverse fs_a.store [0, 1, 2] ["."] = traverse fs_a.store [0, 1, 2] [] ∧
    traverse fs_a.store [0, 1, 2] [".."] = traverse fs_a.store [0, 1, 2] [] ∧
    traverse fs_a.store [0, 1, 2, 3] [".."] = traverse fs_a.store [0, 1, 2] [] ∧
    traverse fs_a.store [0, 1, 2] ["z"] = ([0, 1, 2], ["z"]) ∧
    traverse fs_a.store [0, 1, 2] ["a"] = traverse fs_a.store [0, 1, 2, 3] [] := by
  have h := path_resolver_step_spec fs_a.store [0, 1, 2] "a" []
    (by decide) (by decide)
  have h2 := path_resolver_step_spec fs_a.store [0, 1, 2] "z" []
    (by decide) (by decide)
  have h3 := path_resolver_step_spec fs_a.store [0, 1, 2, 3] "a" []
    (by decide) (by decide)
  exact ⟨h.1, h.2.1 (by decide), h3.2.2.1 (by decide),
    h2.2.2.2.1 (by decide), h.2.2.2.2 3 (by decide)⟩

/-! ### C6 — lookup primitives never fail -/

/-- C6: `status` never throws; it reports `directory` when the path fully
resolves to a directory node and `not_found` whenever resolution stops before
the end; `exists` and `is_directory` likewise report `false`, never an error,
for every non-existent path. -/
theorem status_never_errors_spec (fs : fake_filesystem) (p : path) :
    (status fs p).2 = Option.none ∧
    ((traverse_path fs p).2 = [] →
      (getNode fs.store (chain_back (traverse_path fs p).1)).type = file_type.directory →
      (status fs p).1 = file_type.directory) ∧
    ((traverse_path fs p).2 ≠ [] → (status fs p).1 = file_type.not_found) ∧
    status_t fs p = Except.ok (status fs p).1 ∧
    (exists_p fs p).2 = Option.none ∧
    ((traverse_path fs p).2 ≠ [] → (exists_p fs p).1 = false) ∧
    exists_t fs p = Except.ok (exists_p fs p).1 ∧
    (is_directory fs p).2 = Option.none ∧
    ((traverse_path fs p).2 ≠ [] → (is_directory fs p).1 = false) ∧
    is_directory_t fs p = Except.ok (is_directory fs p).1 := by
  refine ⟨rfl, ?_, ?_, rfl, rfl, ?_, rfl, rfl, ?_, rfl⟩
  · intro h1 h2
    simp [status, h1, h2]
  · intro h1
    simp [status, h1]
  · intro h1
    by_cases hp : p = []
    · simp [exists_p, hp]
    · simp [exists_p, hp, h1]
  · intro h1
    by_cases hp : p = []
    · simp [is_directory, hp]
    · simp [is_directory, hp, h1]

/-- Witness for C6 at the non-existent path `a/missing` of `fs_a`. -/
theorem status_never_errors_spec_witness :
    (status fs_a ["a", "missing"]).1 = file_type.not_found ∧
    (status fs_a ["a", "missing"]).2 = Option.none ∧
    (exists_p fs_a ["a", "missing"]).1 = false ∧
    (is_directory fs_a ["a", "missing"]).1 = false := by
  have h := status_never_errors_spec fs_a ["a", "missing"]
  exact ⟨h.2.2.1 (by decide), h.1, h.2.2.2.2.2.1 (by decide),
    h.2.2.2.2.2.2.2.2.1 (by decide)⟩

/-! ### C5 — atomicity of the `current_path` setter -/

/-- C5: the `current_path` setter either fully resolves the path to a
directory node and replaces the cwd path and the cwd node chain together —
with the stored path the concatenation of the chain's node names — or it
reports failure and leaves both (and the store) completely unchanged; and the
concatenation invariant, once true, stays true across the call. -/
theorem current_path_atomic_spec (fs : fake_filesystem) (p : path)
    (ec : error_code) :
    (p = [] →
      current_path_set fs p ec = (fs, some errc.no_such_file_or_directory)) ∧
    (p ≠ [] → (traverse_path fs p).2 = [] →
      (getNode fs.store (chain_back (traverse_path fs p).1)).type = file_type.directory →
      current_path_set fs p ec =
        ({ fs with cwd := concat_names fs.store (traverse_path fs p).1,
                   cwd_nodes := (traverse_path fs p).1 }, Option.none)) ∧
    (p ≠ [] → (traverse_path fs p).2 = [] →
      (getNode fs.store (chain_back (traverse_path fs p).1)).type ≠ file_type.directory →
      current_path_set fs p ec = (fs, some errc.no_such_file_or_directory)) ∧
    (p ≠ [] → (traverse_path fs p).2 ≠ [] →
      current_path_set fs p ec = (fs, some errc.no_such_file_or_directory)) ∧
    (concat_names fs.store fs.cwd_nodes = fs.cwd →
      concat_names (current_path_set fs p ec).1.store
          (current_path_set fs p ec).1.cwd_nodes
        = (current_path_set fs p ec).1.cwd) := by
  refine ⟨?_, ?_, ?_, ?_, ?_⟩
  · intro hp
    simp [current_path_set, hp]
  · intro hp h1 h2
    simp [current_path_set, hp, h1, h2]
  · intro hp h1 h2
    simp [current_path_set, hp, h1, h2]
  · intro hp h1
    simp [current_path_set, hp, h1]
  · intro hinv
    by_cases hp : p = []
    · simpa [current_path_set, hp] using hinv
    · by_cases h1 : (traverse_path fs p).2 = []
      · by_cases h2 : (getNode fs.store (chain_back (traverse_path fs p).1)).type =
          file_type.directory
        · simp [current_path_set, hp, h1, h2]
        · simpa [current_path_set, hp, h1, h2] using hinv
      · simpa [current_path_set, hp, h1] using hinv

/-- Witness for C5: `current_path("a")` on `fs_a` replaces both cwd fields
together; the concatenated chain names equal the new cwd path. -/
theorem current_path_atomic_spec_witness :
    (current_path_set fs_a ["a"] Option.none).1.cwd = ["C:", "\\", "a"] ∧
    (current_path_set fs_a ["a"] Option.none).1.cwd_nodes = [0, 1, 2, 3] ∧
    (current_path_set fs_a ["a"] Option.none).2 = Option.none ∧
    concat_names (current_path_set fs_a ["a"] Option.none).1.store
        (current_path_set fs_a ["a"] Option.none).1.cwd_nodes
      = (current_path_set fs_a ["a"] Option.none).1.cwd := by
  have h := current_path_atomic_spec fs_a ["a"] Option.none
  have h2 := h.2.1 (by decide) (by decide) (by decide)
  refine ⟨?_, ?_, ?_, h.2.2.2.2 (by decide)⟩
  · rw [h2]; decide
  · rw [h2]; decide
  · rw [h2]

/-! ### C10 — `remove_all` and the caller's error code -/

/-- C10: on the `error_code` overload, a successful removal returns the
subtree count without ever writing to `ec` — the code is cleared only on the
empty-path and path-not-found branches and set only on the root branch, so a
pre-existing error value survives a successful removal. -/
theorem remove_all_error_code_spec (fs : fake_filesystem) (p : path)
    (ec : error_code) :
    (p = [] → remove_all fs p ec = (0, fs, Option.none)) ∧
    (p ≠ [] → (traverse_path fs p).2 ≠ [] →
      remove_all fs p ec = (0, fs, Option.none)) ∧
    (p ≠ [] → (traverse_path fs p).2 = [] →
      (getNode fs.store (chain_back (traverse_path fs p).1)).type = file_type.directory →
      is_root_dir_name (getNode fs.store (chain_back (traverse_path fs p).1)).name = true →
      remove_all fs p ec = (0, fs, some errc.permission_denied)) ∧
    (p ≠ [] → (traverse_path fs p).2 = [] →
      ¬ ((getNode fs.store (chain_back (traverse_path fs p).1)).type = file_type.directory ∧
         is_root_dir_name (getNode fs.store (chain_back (traverse_path fs p).1)).name = true) →
      (remove_all fs p ec).2.2 = ec) := by
  refine ⟨?_, ?_, ?_, ?_⟩
  · intro hp
    simp [remove_all, hp]
  · intro hp h1
    simp [remove_all, hp, h1]
  · intro hp h1 h2 h3
    simp [remove_all, hp, h1, h2, h3]
  · intro hp h1 h2
    simp [remove_all, hp, h1, h2]

/-- Witness for C10: a caller-stored error value survives the successful
`remove_all("a")` on `fs_a`, while the not-found branch clears it. -/
theorem remove_all_error_code_spec_witness :
    (remove_all fs_a ["a"] (some errc.not_supported)).2.2 = some errc.not_supported ∧
    (remove_all fs_a ["a"] (some errc.not_supported)).1 = 1 ∧
    remove_all fs_a ["missing"] (some errc.not_supported) =
      (0, fs_a, Option.none) := by
  have h := remove_all_error_code_spec fs_a ["a"] (some errc.not_supported)
  have h2 := remove_all_error_code_spec fs_a ["missing"] (some errc.not_supported)
  exact ⟨h.2.2.2 (by decide) (by decide) (by decide), by decide,
    h2.2.1 (by decide) (by decide)⟩

/-! ### C9 — idempotent create and duplicate-free sorted insertion -/

/-- C9: `create_directory` on an existing directory path returns `false`
with a clear error code and an unchanged filesystem; sorted insertion returns
`false` and leaves the child list unchanged whenever a node with the same
name is already present, preserves the name-sorted order on every insert, and
therefore never produces two children with the same name under one parent. -/
theorem create_directory_idempotent_insert_spec (fs : fake_filesystem)
    (p : path) (ec : error_code) (h : store) (l : List Nat) (n : Nat)
    (hs : sorted_names h l) :
    (p ≠ [] → (traverse_path fs p).2 = [] →
      (getNode fs.store (chain_back (traverse_path fs p).1)).type = file_type.directory →
      create_directory fs p ec = (false, fs, Option.none)) ∧
    (∀ m ∈ l, node_name h m = node_name h n → insert_node h l n = (l, false)) ∧
    sorted_names h (insert_node h l n).1 ∧
    ((insert_node h l n).1.map (node_name h)).Nodup := by
  refine ⟨?_, ?_, insert_node_sorted hs, sorted_names_nodup (insert_node_sorted hs)⟩
  · intro hp h1 h2
    simp [create_directory, hp, h1, h2]
  · intro m hm hname
    exact insert_node_dup hs hm hname

/-- Witness for C9: creating the already-existing directory `a` of `fs_a`
twice returns `false` with a clear code both times, and inserting a node
named `"a"` into the root's child list is refused. -/
theorem create_directory_idempotent_insert_spec_witness :
    create_directory fs_a ["a"] Option.none = (false, fs_a, Option.none) ∧
    create_directory (create_directory fs_a ["a"] Option.none).2.1 ["a"]
        Option.none = (false, fs_a, Option.none) ∧
    insert_node fs_a.store [3] 3 = ([3], false) ∧
    sorted_names fs_a.store (insert_node fs_a.store [3] 3).1 := by
  have h := create_directory_idempotent_insert_spec fs_a ["a"] Option.none
    fs_a.store [3] 3 (by decide)
  have e1 := h.1 (by decide) (by decide) (by decide)
  refine ⟨e1, ?_, h.2.1 3 (by decide) rfl, h.2.2.1⟩
  rw [e1]
  exact e1

/-! ### C1 — `create_directories` and the spec's existence property -/

/-- C1 (divergence witness): `create_directories("a/./b")` on a fresh
filesystem returns `true` with a clear error code, yet immediately afterwards
`exists("a/./b")` and `is_directory("a/./b")` are `false` and `status`
reports `not_found`: the creation loop inserts a literal `"."` child node
that path resolution (which treats `"."` specially) can never find again.
The claimed property — and the behaviour of `std::filesystem`, which the fake
is tested to mirror — requires `exists(p)` to be `true` here. -/
theorem create_directories_dot_component_divergence :
    (create_directories mk_fs ["a", ".", "b"] Option.none).1 = true ∧
    (create_directories mk_fs ["a", ".", "b"] Option.none).2.2 = Option.none ∧
    (exists_p (create_directories mk_fs ["a", ".", "b"] Option.none).2.1
        ["a", ".", "b"]).1 = false ∧
    (is_directory (create_directories mk_fs ["a", ".", "b"] Option.none).2.1
        ["a", ".", "b"]).1 = false ∧
    (status (create_directories mk_fs ["a", ".", "b"] Option.none).2.1
        ["a", ".", "b"]).1 = file_type.not_found := by
  decide

/-! ### C7 — the recursive walk over the test tree -/

/-- C7: over a fresh filesystem holding exactly `a/b/c`, `a/b/i` and `x/y/z`
(built via `create_directories`), driving the recursive directory iterator
over `"."` by repeated `increment()` until `at_end()` visits exactly the
seven directory paths `./a, ./a/b, ./a/b/c, ./a/b/i, ./x, ./x/y, ./x/y/z`,
each exactly once (the visited list has no duplicates, so list and set
comparison agree), and the iterator is at the end after the seventh
increment. -/
theorem recursive_iteration_visits_seven :
    (recursive_directory_iterator fs_tree ["."]).2 = Option.none ∧
    rdi_collect fs_tree.store 20 (recursive_directory_iterator fs_tree ["."]).1 =
      [[".", "a"], [".", "a", "b"], [".", "a", "b", "c"], [".", "a", "b", "i"],
       [".", "x"], [".", "x", "y"], [".", "x", "y", "z"]] ∧
    (rdi_collect fs_tree.store 20
      (recursive_directory_iterator fs_tree ["."]).1).Nodup ∧
    rdi_at_end (Nat.iterate (fun jt => (rdi_increment fs_tree.store jt).1) 7
      (recursive_directory_iterator fs_tree ["."]).1) = true := by
  decide

/-! ### C8 — external steering of the recursive iterator -/

/-- The refresh step never changes the one-shot flag. -/
theorem rdi_refresh_recursion_pending (h : store)
    (it : fake_recursive_directory_iterator) :
    (rdi_refresh h it).recursion_pending_ = it.recursion_pending_ := by
  unfold rdi_refresh
  split <;> rfl

/-- One step of the ascent loop when the restored range is already exhausted
and further stack levels remain. -/
theorem rdi_ascend_cascade (p : path) (s : List (List Nat)) (d : Int)
    (hs : s ≠ []) :
    rdi_ascend p [] s d =
      rdi_ascend (parent_path p) (s.getLastD []) s.dropLast (d - 1) := by
  unfold rdi_ascend
  have hlen : s.length = s.dropLast.length + 1 := by
    rw [List.length_dropLast]
    have := List.length_pos.mpr hs
    omega
  conv_lhs => rw [hlen]
  rw [show rdi_ascend_fuel (s.dropLast.length + 1 + 1) p [] s d
      = if ([] : List Nat) = [] ∧ s ≠ [] then
          rdi_ascend_fuel (s.dropLast.length + 1) (parent_path p)
            (s.getLastD []) s.dropLast (d - 1)
        else (p, [], s, d) from rfl]
  simp [hs]

/-- C8: after `disable_recursion_pending()`, an `increment()` on a non-empty
directory advances to that directory's next sibling without visiting any of
its children (range, stack, depth and path accumulator of the level are
untouched); the one-shot `recursion_pending` flag is reset to true by every
increment; and `pop()` moves directly to the parent level at depth `n-1`
(with exhausted ancestor levels cascaded past) or to the end iterator at
depth 0 when no ancestor level remains. -/
theorem rdi_steering_spec (h : store) (it : fake_recursive_directory_iterator)
    (n : Nat) (ns : List Nat)
    (hr : it.range_ = n :: ns)
    (hdir : (getNode h n).type = file_type.directory)
    (hne : (getNode h n).dents ≠ [])
    (hsib : ns ≠ []) :
    (∀ jt : fake_recursive_directory_iterator,
      (rdi_increment h jt).1.recursion_pending_ = true) ∧
    ((rdi_increment h (rdi_disable_recursion_pending it)).1.range_ = ns ∧
     (rdi_increment h (rdi_disable_recursion_pending it)).1.stack_ = it.stack_ ∧
     (rdi_increment h (rdi_disable_recursion_pending it)).1.depth_ = it.depth_ ∧
     (rdi_increment h (rdi_disable_recursion_pending it)).1.path_ = it.path_ ∧
     (rdi_increment h (rdi_disable_recursion_pending it)).1.dent_path_ =
       path_append it.path_ (node_name h (ns.headD dead_id))) ∧
    (it.stack_ = [] →
      (rdi_pop h it).1.range_ = [] ∧ (rdi_pop h it).1.depth_ = 0) ∧
    (∀ s r, it.stack_ = s ++ [r] → r ≠ [] →
      (rdi_pop h it).1.range_ = r ∧ (rdi_pop h it).1.stack_ = s ∧
      (rdi_pop h it).1.depth_ = it.depth_ - 1 ∧
      (rdi_pop h it).1.path_ = parent_path it.path_) ∧
    (∀ s r, it.stack_ = s ++ [r] → r = [] → s ≠ [] →
      rdi_pop h it =
        rdi_pop h { it with path_ := parent_path it.path_, range_ := r,
                            stack_ := s, depth_ := it.depth_ - 1 }) := by
  refine ⟨?_, ?_, ?_, ?_, ?_⟩
  · intro jt
    unfold rdi_increment
    split
    · rfl
    · dsimp only
      split
      · rw [rdi_refresh_recursion_pending]
      · rw [rdi_refresh_recursion_pending]
  · have hcur : rdi_cur (rdi_disable_recursion_pending it) = n := by
      simp [rdi_cur, rdi_disable_recursion_pending, hr]
    simp [rdi_increment, rdi_disable_recursion_pending, hr, hsib, rdi_cur,
      rdi_ascend, rdi_ascend_fuel, rdi_refresh]
  · intro hst
    simp [rdi_pop, hst, rdi_refresh]
  · intro s r hst hrne
    simp [rdi_pop, hst, rdi_ascend, rdi_ascend_fuel, hrne, rdi_refresh,
      List.getLastD_concat, List.dropLast_concat]
  · intro s r hst hrnil hsne
    subst hrnil
    have h1 : it.stack_ ≠ [] := by rw [hst]; simp
    unfold rdi_pop
    rw [if_neg h1, if_neg hsne, hst]
    simp only [List.getLastD_concat, List.dropLast_concat]
    rw [rdi_ascend_cascade _ _ _ hsne]

/-- Witness for C8 at the freshly constructed iterator of `fs_tree` over
`"."` (current entry `./a`, a non-empty directory, with next sibling `./x`):
disable-then-increment skips `a`'s whole subtree and lands on `./x` at the
same depth with the same (empty) stack, the flag is reset by an increment,
and `pop()` with no ancestor level yields the end iterator at depth 0. -/
theorem rdi_steering_spec_witness :
    (rdi_increment fs_tree.store (rdi_disable_recursion_pending
        (recursive_directory_iterator fs_tree ["."]).1)).1.dent_path_ = [".", "x"] ∧
    (rdi_increment fs_tree.store (rdi_disable_recursion_pending
        (recursive_directory_iterator fs_tree ["."]).1)).1.depth_ = 0 ∧
    (rdi_increment fs_tree.store (rdi_disable_recursion_pending
        (recursive_directory_iterator fs_tree ["."]).1)).1.stack_ = [] ∧
    (rdi_increment fs_tree.store
        (recursive_directory_iterator fs_tree ["."]).1).1.recursion_pending_ = true ∧
    (rdi_pop fs_tree.store (recursive_directory_iterator fs_tree ["."]).1).1.range_ = [] ∧
    (rdi_pop fs_tree.store (recursive_directory_iterator fs_tree ["."]).1).1.depth_ = 0 := by
  have h := rdi_steering_spec fs_tree.store
    (recursive_directory_iterator fs_tree ["."]).1 3 [6]
    (by decide) (by decide) (by decide) (by decide)
  have hpop := h.2.2.1 (by decide)
  refine ⟨?_, ?_, ?_, h.1 _, hpop.1, hpop.2⟩
  · rw [h.2.1.2.2.2.2]; decide
  · rw [h.2.1.2.2.1]; decide
  · rw [h.2.1.2.1]; decide

/-! ### Unlinking a node: effect on later traversals

`remove` and `remove_all` unlink the resolved node `n` from the child list of
the chain's second-to-last node and leave everything else in place; in
particular the cwd chain still references `n` if it runs through it.  The
lemmas below show that a path that used to resolve to `n` no longer resolves
after the unlink, **provided** the traversal's start chain does not itself
contain `n`. -/

/-- The node a path resolves to: the last node of the traversal chain. -/
def resolved_node (fs : fake_filesystem) (p : path) : Nat :=
  chain_back (traverse_path fs p).1

/-- The parent the unlink acts on: the second-to-last node of the traversal
chain (`node_path.pop_back(); node_path.back()`). -/
def resolved_parent (fs : fake_filesystem) (p : path) : Nat :=
  chain_back (traverse_path fs p).1.dropLast

/-- The store after `remove`/`remove_all` unlink node `n` from `parent`. -/
def removed_store (h : store) (parent n : Nat) : store :=
  set_dents h parent (remove_node h (getNode h parent).dents (node_name h n)).1

theorem getNode_set_dents_self {h : store} {j : Nat} (l : List Nat)
    (hj : j < h.length) :
    getNode (set_dents h j l) j = { getNode h j with dents := l } := by
  simp [getNode, set_dents, List.getD, List.getElem?_set_self, hj]

theorem getNode_set_dents_ne {h : store} {i j : Nat} (l : List Nat)
    (hij : i ≠ j) :
    getNode (set_dents h j l) i = getNode h i := by
  simp [getNode, set_dents, List.getD, List.getElem?_set_ne (Ne.symm hij)]

theorem getNode_out_of_range {h : store} {i : Nat} (hi : h.length ≤ i) :
    getNode h i = ⟨"", file_type.none, []⟩ :=
  List.getD_eq_default _ _ hi

theorem node_name_set_dents (h : store) (j : Nat) (l : List Nat) (i : Nat) :
    node_name (set_dents h j l) i = node_name h i := by
  by_cases hij : i = j
  · subst hij
    by_cases hj : i < h.length
    · rw [node_name, getNode_set_dents_self l hj]; rfl
    · rw [node_name, node_name, set_dents,
        getNode_out_of_range (le_of_not_lt hj),
        getNode_out_of_range (by simpa using le_of_not_lt hj)]
  · simp [node_name, getNode_set_dents_ne l hij]

theorem node_type_set_dents (h : store) (j : Nat) (l : List Nat) (i : Nat) :
    (getNode (set_dents h j l) i).type = (getNode h i).type := by
  by_cases hij : i = j
  · subst hij
    by_cases hj : i < h.length
    · rw [getNode_set_dents_self l hj]
    · rw [set_dents, getNode_out_of_range (le_of_not_lt hj),
        getNode_out_of_range (by simpa using le_of_not_lt hj)]
  · rw [getNode_set_dents_ne l hij]

/-- Lookup only consults node names, so it is unchanged by a store update
that preserves them. -/
theorem find_node_congr {h h' : store}
    (hn : ∀ i, node_name h' i = node_name h i) (l : List Nat) (nm : String) :
    find_node h' l nm = find_node h l nm := by
  induction l with
  | nil => rfl
  | cons m rest ih => simp only [find_node, hn, ih]

/-- A list whose node names all exceed `nm` contains no match. -/
theorem find_node_none_of_gt {h : store} {l : List Nat} {nm : String}
    (hall : ∀ x ∈ l, nlt nm (node_name h x)) :
    find_node h l nm = Option.none := by
  cases l with
  | nil => rfl
  | cons a t =>
    have ha := hall a (List.mem_cons_self _ _)
    simp [find_node, nlt_asymm ha, ha]

/-- After removing every node named `nm` from a sorted list, lookup of `nm`
fails. -/
theorem find_node_remove_self {h : store} {l : List Nat} {nm : String}
    (hs : sorted_names h l) :
    find_node h (remove_node h l nm).1 nm = Option.none := by
  induction l with
  | nil => rfl
  | cons m rest ih =>
    rcases List.pairwise_cons.mp hs with ⟨hm, hrest⟩
    by_cases h1 : nlt (node_name h m) nm
    · simp only [remove_node, if_pos h1, find_node, ih hrest]
    · by_cases h2 : nlt nm (node_name h m)
      · simp [remove_node, h1, h2, find_node]
      · have heq : node_name h m = nm := eq_of_not_nlt h1 h2
        simp only [remove_node, if_neg h1, if_neg h2]
        refine find_node_none_of_gt ?_
        intro x hx
        have hxr : x ∈ rest := (List.dropWhile_sublist _).subset hx
        exact heq ▸ hm x hxr

/-- Removing the nodes named `nm` from a sorted list leaves lookups of other
names unchanged. -/
theorem find_node_remove_ne {h : store} {l : List Nat} {nm nm' : String}
    (hs : sorted_names h l) (hne : nm' ≠ nm) :
    find_node h (remove_node h l nm).1 nm' = find_node h l nm' := by
  induction l with
  | nil => rfl
  | cons m rest ih =>
    rcases List.pairwise_cons.mp hs with ⟨hm, hrest⟩
    by_cases h1 : nlt (node_name h m) nm
    · simp only [remove_node, if_pos h1, find_node, ih hrest]
    · by_cases h2 : nlt nm (node_name h m)
      · simp only [remove_node, if_neg h1, if_pos h2]
      · have heq : node_name h m = nm := eq_of_not_nlt h1 h2
        simp only [remove_node, if_neg h1, if_neg h2]
        have hdrop : rest.dropWhile (fun i => node_name h i = nm) = rest := by
          cases rest with
          | nil => rfl
          | cons a t =>
            have ha : nlt nm (node_name h a) :=
              heq ▸ hm a (List.mem_cons_self _ _)
            rw [List.dropWhile_cons, if_neg]
            simp only [decide_eq_true_eq]
            intro hcontra
            exact nlt_irrefl nm (hcontra ▸ ha)
        rw [hdrop]
        by_cases h3 : nlt (node_name h m) nm'
        · simp only [find_node, if_pos h3]
        · by_cases h4 : nlt nm' (node_name h m)
          · simp only [find_node, if_neg h3, if_pos h4]
            refine find_node_none_of_gt ?_
            intro x hx
            exact nlt_trans h4 (hm x hx)
          · exact absurd (heq ▸ eq_of_not_nlt h4 h3) hne

/-- The last element of a nonempty chain is one of its members. -/
theorem chain_back_mem {l : List Nat} (hl : l ≠ []) : chain_back l ∈ l := by
  induction l using List.reverseRecOn with
  | nil => exact absurd rfl hl
  | append_singleton xs a _ =>
    rw [chain_back, List.getLastD_concat]
    exact List.mem_append_right _ (List.mem_singleton_self _)

/-- Core lemma: after unlinking `n` from `parent` (whose child list is
sorted, and which is the only node referencing `n`), a traversal whose start
chain avoids `n` either behaves exactly as before while never reaching `n`,
or stops with unresolved components left. -/
theorem traverse_after_remove
    (h : store) (parent n : Nat)
    (hp : parent < h.length)
    (hsort : sorted_names h (getNode h parent).dents)
    (huniq : ∀ b, b < h.length → n ∈ (getNode h b).dents → b = parent) :
    ∀ (comps : List String) (C : List Nat), n ∉ C →
      (traverse (removed_store h parent n) C comps = traverse h C comps ∧
        n ∉ (traverse h C comps).1) ∨
      (traverse (removed_store h parent n) C comps).2 ≠ [] := by
  have hnames : ∀ i, node_name (removed_store h parent n) i = node_name h i :=
    fun i => node_name_set_dents h parent _ i
  have hdents_ne : ∀ b, b ≠ parent →
      (getNode (removed_store h parent n) b).dents = (getNode h b).dents :=
    fun b hb => by rw [removed_store, getNode_set_dents_ne _ hb]
  have hdents_self : (getNode (removed_store h parent n) parent).dents =
      (remove_node h (getNode h parent).dents (node_name h n)).1 := by
    rw [removed_store, getNode_set_dents_self _ hp]
  intro comps
  induction comps with
  | nil => intro C hC; exact Or.inl ⟨rfl, hC⟩
  | cons c rest ih =>
    intro C hC
    by_cases hdot : c = "."
    · subst hdot
      simpa only [traverse, if_pos rfl] using ih C hC
    · by_cases hdd : c = ".."
      · subst hdd
        have hnb : node_name (removed_store h parent n) (chain_back C) =
            node_name h (chain_back C) := hnames _
        by_cases hroot : is_root_dir_name (node_name h (chain_back C)) = true
        · simpa only [traverse, if_neg hdot, if_pos rfl, hnb, hroot, if_pos]
            using ih C hC
        · have hC' : n ∉ C.dropLast :=
            fun hx => hC ((List.dropLast_sublist C).subset hx)
          have hrootf : is_root_dir_name (node_name h (chain_back C)) = false :=
            Bool.eq_false_iff.mpr hroot
          simpa only [traverse, if_neg hdot, if_pos rfl, hnb, hrootf,
            Bool.false_eq_true, if_false] using ih C.dropLast hC'
      · by_cases hblen : chain_back C < h.length
        · by_cases hbp : chain_back C = parent
          · by_cases hcn : c = node_name h n
            · refine Or.inr ?_
              have hfindnone : find_node (removed_store h parent n)
                  (getNode (removed_store h parent n) (chain_back C)).dents c =
                  Option.none := by
                rw [hbp, hdents_self, find_node_congr hnames, hcn]
                exact find_node_remove_self (hbp ▸ hsort)
              simp [traverse, hdot, hdd, hfindnone]
            · have hfeq : find_node (removed_store h parent n)
                  (getNode (removed_store h parent n) (chain_back C)).dents c =
                  find_node h (getNode h (chain_back C)).dents c := by
                rw [hbp, hdents_self, find_node_congr hnames,
                  find_node_remove_ne hsort hcn]
              cases hfind : find_node h (getNode h (chain_back C)).dents c with
              | none =>
                refine Or.inl ⟨?_, ?_⟩
                · simp [traverse, hdot, hdd, hfind, hfeq]
                · simp only [traverse, if_neg hdot, if_neg hdd, hfind]
                  exact hC
              | some m =>
                have hmname : node_name h m = c := (find_node_eq_some hfind).1
                have hmn : m ≠ n := fun he => hcn (by rw [← hmname, he])
                have hC' : n ∉ C ++ [m] := by
                  simp only [List.mem_append, List.mem_singleton]
                  rintro (hx | hx)
                  · exact hC hx
                  · exact hmn hx.symm
                simpa only [traverse, if_neg hdot, if_neg hdd, hfind, hfeq]
                  using ih (C ++ [m]) hC'
          · have hfeq : find_node (removed_store h parent n)
                (getNode (removed_store h parent n) (chain_back C)).dents c =
                find_node h (getNode h (chain_back C)).dents c := by
              rw [hdents_ne _ hbp, find_node_congr hnames]
            cases hfind : find_node h (getNode h (chain_back C)).dents c with
            | none =>
              refine Or.inl ⟨?_, ?_⟩
              · simp [traverse, hdot, hdd, hfind, hfeq]
              · simp only [traverse, if_neg hdot, if_neg hdd, hfind]
                exact hC
            | some m =>
              have hmmem : m ∈ (getNode h (chain_back C)).dents :=
                (find_node_eq_some hfind).2
              have hmn : m ≠ n := fun he => hbp (huniq _ hblen (he ▸ hmmem))
              have hC' : n ∉ C ++ [m] := by
                simp only [List.mem_append, List.mem_singleton]
                rintro (hx | hx)
                · exact hC hx
                · exact hmn hx.symm
              simpa only [traverse, if_neg hdot, if_neg hdd, hfind, hfeq]
                using ih (C ++ [m]) hC'
        · have hlen' : (removed_store h parent n).length = h.length := by
            rw [removed_store, set_dents, List.length_set]
          have h1 : (getNode h (chain_back C)).dents = [] := by
            rw [getNode_out_of_range (le_of_not_lt hblen)]
          have h2 : (getNode (removed_store h parent n) (chain_back C)).dents = [] := by
            rw [getNode_out_of_range (hlen' ▸ le_of_not_lt hblen)]
          refine Or.inl ⟨?_, ?_⟩
          · simp [traverse, hdot, hdd, h1, h2, find_node]
          · simp only [traverse, if_neg hdot, if_neg hdd, h1, find_node]
            exact hC

/-- A path that resolved to `n` before the unlink no longer fully resolves
afterwards, provided the start chain does not contain `n`. -/
theorem traverse_fails_after_remove
    (h : store) (S : List Nat) (p : path) (parent n : Nat)
    (hp : parent < h.length)
    (hsort : sorted_names h (getNode h parent).dents)
    (huniq : ∀ b, b < h.length → n ∈ (getNode h b).dents → b = parent)
    (hres : (traverse h S p).2 = [])
    (hCne : (traverse h S p).1 ≠ [])
    (hlast : chain_back (traverse h S p).1 = n)
    (hnS : n ∉ S) :
    (traverse (removed_store h parent n) S p).2 ≠ [] := by
  rcases traverse_after_remove h parent n hp hsort huniq p S hnS with ⟨_, hnot⟩ | hne
  · exact absurd (hlast ▸ chain_back_mem hCne) hnot
  · exact hne

theorem foldl_add_map (g : Nat → Nat) (l : List Nat) (init : Nat) :
    l.foldl (fun a d => a + g d) init = init + (l.map g).sum := by
  induction l generalizing init with
  | nil => simp
  | cons a t ih => simp [ih, add_assoc]

/-- `visit_nodes` counts the node itself plus, recursively, all of its
descendants. -/
theorem visit_count_succ (h : store) (f : Nat) (i : Nat) :
    visit_count h (f + 1) i =
      1 + ((getNode h i).dents.map (visit_count h f)).sum := by
  show (getNode h i).dents.foldl (fun acc d => acc + visit_count h f d) 1 = _
  exact foldl_add_map _ _ 1

/-! ### C3 — `remove_all` -/

/-- C3 (amended): a path that does not resolve gives count 0 with no error
and no change; a root directory gives `permission_denied`; an existing
non-root node is unlinked from its parent and the call returns the
depth-first count of the node and its descendants (1 for the node plus the
recursively counted children) while passing `ec` through; and afterwards
`exists(p)` is false **provided the removed node is not one of the nodes on
the current-working-directory chain used to start the traversal** (the chain
keeps unlinked nodes alive, see the counterexample). -/
theorem remove_all_subtree_spec (fs : fake_filesystem) (p : path)
    (ec : error_code) :
    (p ≠ [] → (traverse_path fs p).2 ≠ [] →
      remove_all fs p ec = (0, fs, Option.none)) ∧
    (p ≠ [] → (traverse_path fs p).2 = [] →
      (getNode fs.store (resolved_node fs p)).type = file_type.directory →
      is_root_dir_name (getNode fs.store (resolved_node fs p)).name = true →
      remove_all fs p ec = (0, fs, some errc.permission_denied)) ∧
    (∀ f i, visit_count fs.store (f + 1) i =
      1 + ((getNode fs.store i).dents.map (visit_count fs.store f)).sum) ∧
    (p ≠ [] → (traverse_path fs p).2 = [] →
      ¬ ((getNode fs.store (resolved_node fs p)).type = file_type.directory ∧
         is_root_dir_name (getNode fs.store (resolved_node fs p)).name = true) →
      remove_all fs p ec =
        (visit_count
           (removed_store fs.store (resolved_parent fs p) (resolved_node fs p))
           fs.store.length (resolved_node fs p),
         { fs with store :=
             removed_store fs.store (resolved_parent fs p) (resolved_node fs p) },
         ec)) ∧
    (p ≠ [] → (traverse_path fs p).2 = [] →
      ¬ ((getNode fs.store (resolved_node fs p)).type = file_type.directory ∧
         is_root_dir_name (getNode fs.store (resolved_node fs p)).name = true) →
      resolved_parent fs p < fs.store.length →
      sorted_names fs.store (getNode fs.store (resolved_parent fs p)).dents →
      (∀ b, b < fs.store.length →
        resolved_node fs p ∈ (getNode fs.store b).dents →
        b = resolved_parent fs p) →
      (traverse_path fs p).1 ≠ [] →
      resolved_node fs p ∉ start_chain fs p →
      (exists_p (remove_all fs p ec).2.1 p).1 = false) := by
  have hmain : p ≠ [] → (traverse_path fs p).2 = [] →
      ¬ ((getNode fs.store (resolved_node fs p)).type = file_type.directory ∧
         is_root_dir_name (getNode fs.store (resolved_node fs p)).name = true) →
      remove_all fs p ec =
        (visit_count
           (removed_store fs.store (resolved_parent fs p) (resolved_node fs p))
           fs.store.length (resolved_node fs p),
         { fs with store :=
             removed_store fs.store (resolved_parent fs p) (resolved_node fs p) },
         ec) := by
    intro hp h1 h2
    simp only [resolved_node] at h2
    simp only [remove_all, if_neg hp, h1]
    rw [if_neg (by simp), if_neg h2]
    simp only [removed_store, resolved_node, resolved_parent, node_name,
      set_dents, List.length_set]
  refine ⟨?_, ?_, fun f i => visit_count_succ fs.store f i, hmain, ?_⟩
  · intro hp h1
    simp [remove_all, hp, h1]
  · intro hp h1 h2 h3
    simp only [resolved_node] at h2 h3
    simp only [remove_all, if_neg hp, h1]
    rw [if_neg (by simp), if_pos ⟨h2, h3⟩]
  · intro hp h1 h2 hplen hsort huniq hCne hnS
    rw [hmain hp h1 h2]
    have hfail := traverse_fails_after_remove fs.store (start_chain fs p) p
      (resolved_parent fs p) (resolved_node fs p) hplen hsort huniq h1 hCne rfl hnS
    simp only [exists_p, if_neg hp]
    simp only [traverse_path, start_chain] at hfail ⊢
    simpa using hfail

/-- C3 counterexample: with the cwd set to `C:\a`, `remove_all(".")` removes
the (empty, non-root) node of `a` and returns 1 with no error — yet
`exists(".")` is still `true` afterwards, because the cwd chain still
references the unlinked node.  This refutes "afterwards exists(p) is false"
as universally stated. -/
theorem remove_all_exists_counterexample :
    (remove_all fs_cwd_a ["."] Option.none).1 = 1 ∧
    (remove_all fs_cwd_a ["."] Option.none).2.2 = Option.none ∧
    (exists_p (remove_all fs_cwd_a ["."] Option.none).2.1 ["."]).1 = true := by
  decide

/-- Witness for C3 on the tree `a/b/c`: `remove_all("a")` returns exactly 3
and clears no caller error; afterwards `exists("a")` is false; a
non-resolving path returns 0 with no error and no change. -/
theorem remove_all_subtree_spec_witness :
    (remove_all fs_abc ["a"] Option.none).1 = 3 ∧
    (remove_all fs_abc ["a"] Option.none).2.2 = Option.none ∧
    (exists_p (remove_all fs_abc ["a"] Option.none).2.1 ["a"]).1 = false ∧
    remove_all fs_abc ["a", "nope"] Option.none = (0, fs_abc, Option.none) := by
  have h := remove_all_subtree_spec fs_abc ["a"] Option.none
  have h4 := h.2.2.2.1 (by decide) (by decide) (by decide)
  have h5 := h.2.2.2.2 (by decide) (by decide) (by decide) (by decide)
    (by decide) (by decide) (by decide) (by decide)
  have hA := (remove_all_subtree_spec fs_abc ["a", "nope"] Option.none).1
    (by decide) (by decide)
  refine ⟨?_, ?_, h5, hA⟩
  · rw [h4]; decide
  · rw [h4]

/-! ### C4 — `remove` -/

/-- C4 (amended): a non-resolving path is a no-op returning `false` with no
error; a root directory fails with `permission_denied` — this check runs
**before** the non-empty check, so it wins even when the root has children;
a non-root directory with children fails with `directory_not_empty` and the
filesystem is unchanged; an empty non-root directory is unlinked with `true`
returned, and afterwards `exists(p)` is false provided the removed node is
not on the traversal's start chain. -/
theorem remove_spec (fs : fake_filesystem) (p : path) (ec : error_code) :
    (p ≠ [] → (traverse_path fs p).2 ≠ [] →
      remove fs p ec = (false, fs, Option.none)) ∧
    (p ≠ [] → (traverse_path fs p).2 = [] →
      (getNode fs.store (resolved_node fs p)).type = file_type.directory →
      is_root_dir_name (getNode fs.store (resolved_node fs p)).name = true →
      remove fs p ec = (false, fs, some errc.permission_denied)) ∧
    (p ≠ [] → (traverse_path fs p).2 = [] →
      (getNode fs.store (resolved_node fs p)).type = file_type.directory →
      is_root_dir_name (getNode fs.store (resolved_node fs p)).name = false →
      (getNode fs.store (resolved_node fs p)).dents ≠ [] →
      remove fs p ec = (false, fs, some errc.directory_not_empty)) ∧
    (p ≠ [] → (traverse_path fs p).2 = [] →
      (getNode fs.store (resolved_node fs p)).type = file_type.directory →
      is_root_dir_name (getNode fs.store (resolved_node fs p)).name = false →
      (getNode fs.store (resolved_node fs p)).dents = [] →
      remove fs p ec =
        (true,
         { fs with store :=
             removed_store fs.store (resolved_parent fs p) (resolved_node fs p) },
         Option.none)) ∧
    (p ≠ [] → (traverse_path fs p).2 = [] →
      (getNode fs.store (resolved_node fs p)).type = file_type.directory →
      is_root_dir_name (getNode fs.store (resolved_node fs p)).name = false →
      (getNode fs.store (resolved_node fs p)).dents = [] →
      resolved_parent fs p < fs.store.length →
      sorted_names fs.store (getNode fs.store (resolved_parent fs p)).dents →
      (∀ b, b < fs.store.length →
        resolved_node fs p ∈ (getNode fs.store b).dents →
        b = resolved_parent fs p) →
      (traverse_path fs p).1 ≠ [] →
      resolved_node fs p ∉ start_chain fs p →
      (exists_p (remove fs p ec).2.1 p).1 = false) := by
  have hmain : p ≠ [] → (traverse_path fs p).2 = [] →
      (getNode fs.store (resolved_node fs p)).type = file_type.directory →
      is_root_dir_name (getNode fs.store (resolved_node fs p)).name = false →
      (getNode fs.store (resolved_node fs p)).dents = [] →
      remove fs p ec =
        (true,
         { fs with store :=
             removed_store fs.store (resolved_parent fs p) (resolved_node fs p) },
         Option.none) := by
    intro hp h1 h2 h3 h4
    simp only [remove, if_neg hp, h1]
    rw [if_neg (by simp)]
    simp only [resolved_node] at h2 h3 h4
    rw [if_pos h2, if_neg (by simp [h3]), if_neg (by simp [h4])]
    simp only [removed_store, resolved_node, resolved_parent, node_name]
  refine ⟨?_, ?_, ?_, hmain, ?_⟩
  · intro hp h1
    simp [remove, hp, h1]
  · intro hp h1 h2 h3
    simp only [remove, if_neg hp, h1]
    rw [if_neg (by simp)]
    simp only [resolved_node] at h2 h3
    rw [if_pos h2, if_pos (by simp [h3])]
  · intro hp h1 h2 h3 h4
    simp only [remove, if_neg hp, h1]
    rw [if_neg (by simp)]
    simp only [resolved_node] at h2 h3 h4
    rw [if_pos h2, if_neg (by simp [h3]), if_pos (by simp [h4])]
  · intro hp h1 h2 h3 h4 hplen hsort huniq hCne hnS
    rw [hmain hp h1 h2 h3 h4]
    have hfail := traverse_fails_after_remove fs.store (start_chain fs p) p
      (resolved_parent fs p) (resolved_node fs p) hplen hsort huniq h1 hCne rfl hnS
    simp only [exists_p, if_neg hp]
    simp only [traverse_path, start_chain] at hfail ⊢
    simpa using hfail

/-- C4 counterexample, refuting two points of the claim as stated: (1) the
root directory of a fresh filesystem with a child is a directory node with
children, yet `remove` fails with `permission_denied`, not
`directory_not_empty` (the root check runs first); (2) with the cwd set to
`C:\a`, `remove(".")` succeeds on the empty directory `a` but `exists(".")`
is still `true` afterwards, because the cwd chain keeps the unlinked node
reachable. -/
theorem remove_counterexample :
    (getNode fs_a.store (resolved_node fs_a ["C:", "\\"])).dents ≠ [] ∧
    (remove fs_a ["C:", "\\"] Option.none).2.2 = some errc.permission_denied ∧
    (remove fs_cwd_a ["."] Option.none).1 = true ∧
    (exists_p (remove fs_cwd_a ["."] Option.none).2.1 ["."]).1 = true := by
  decide

/-- Witness for C4 on the tree `a/b/c`: a non-resolving path is a no-op, the
non-empty directory `a` fails with `directory_not_empty`, and the empty
directory `a/b/c` is removed with `exists` false afterwards. -/
theorem remove_spec_witness :
    remove fs_abc ["a", "nope"] Option.none = (false, fs_abc, Option.none) ∧
    (remove fs_abc ["a"] Option.none).2.2 = some errc.directory_not_empty ∧
    (remove fs_abc ["a", "b", "c"] Option.none).1 = true ∧
    (exists_p (remove fs_abc ["a", "b", "c"] Option.none).2.1
        ["a", "b", "c"]).1 = false := by
  have hA := (remove_spec fs_abc ["a", "nope"] Option.none).1
    (by decide) (by decide)
  have hC := (remove_spec fs_abc ["a"] Option.none).2.2.1
    (by decide) (by decide) (by decide) (by decide) (by decide)
  have hD := (remove_spec fs_abc ["a", "b", "c"] Option.none).2.2.2.1
    (by decide) (by decide) (by decide) (by decide) (by decide)
  have hE := (remove_spec fs_abc ["a", "b", "c"] Option.none).2.2.2.2
    (by decide) (by decide) (by decide) (by decide) (by decide)
    (by decide) (by decide) (by decide) (by decide) (by decide)
  refine ⟨hA, ?_, ?_, hE⟩
  · rw [hC]
  · rw [hD]

end pfs
